import Mathlib

/-!
Shallow embedding of the multi-agent consensus pipeline of the
Greenwash_Checker repository (src/audit_logic.py and src/services.py).

The pipeline's external LLM calls (the two classifier agents, the arbiter,
the logistics detective and the witty summarizer) are modelled as
parameters: each call site receives the response that the external service
would have produced, as an `Except String _` value where `.error` stands
for the Python exception path (network failure, `json.loads` failure, ...).
Everything after the response is received — the fuzzy key matching, the
default-filling, the per-item merge/backfill/arbitrate logic, the empty
short-circuit — is translated from the source.

JSON objects returned by the models are modelled as association lists of
string-valued fields (`JsonObj`), which is the shape the prompts request.
Python's raising subscript `d['k']` is `jindex` (an `Except`), Python's
`d.get('k', default)` is `jget ... |>.getD default`.
-/

namespace Greenwash

/-- A JSON object with string-valued fields, in key enumeration order. -/
abbrev JsonObj := List (String × String)

/-- Python `d.get(k)`: `none` when the key is absent. -/
def jget (o : JsonObj) (k : String) : Option String :=
  (o.find? (fun kv => kv.1 == k)).map (·.2)

/-- Python `d[k]`: raises `KeyError` when the key is absent. -/
def jindex (o : JsonObj) (k : String) : Except String String :=
  match jget o k with
  | some v => Except.ok v
  | none => Except.error ("KeyError: " ++ k)

/-- One agent's verdict for one item: the two-field dict
`{"status": ..., "explanation": ...}` built at audit_logic.py:67-70. -/
structure Verdict where
  status : String
  explanation : String
deriving Repr, DecidableEq

/-- One entry of the final report list built by `merge_and_judge`
(audit_logic.py:105-119): `{"name", "status", "explanation", "consensus"}`. -/
structure FinalVerdict where
  name : String
  status : String
  explanation : String
  consensus : Bool
deriving Repr, DecidableEq

/-- `needle` occurs as a contiguous substring of `hay`
(Python's `needle in hay` on strings, over the character lists). -/
def infixOf (needle : List Char) : List Char → Bool
  | [] => needle.isEmpty
  | c :: rest => needle.isPrefixOf (c :: rest) || infixOf needle rest

/-- The characters of `s.lower()`: Python's `str.lower()` lower-cases the
string character by character. -/
def lowerChars (s : String) : List Char :=
  s.data.map Char.toLower

/-- `a.lower() in b.lower()`. -/
def substrCI (a b : String) : Bool :=
  infixOf (lowerChars a) (lowerChars b)

/-- The match condition of the inner scan at audit_logic.py:62:
`item.lower() in key.lower() or key.lower() in item.lower()`. -/
def matchKey (item key : String) : Bool :=
  substrCI item key || substrCI key item

/-- The inner loop of audit_logic.py:60-64: scan the returned mapping's
keys in enumeration order and take the value of the first key matching
`item`, breaking at the first hit (`found_data`). -/
def findMatch (analysis_dict : List (String × JsonObj)) (item : String) :
    Option JsonObj :=
  (analysis_dict.find? (fun kv => matchKey item kv.1)).map (·.2)

/-- The report-building loop of audit_logic.py:58-71 (identically
services.py:140-152): for each original item, the first matching key's
value — if truthy, i.e. a non-empty object — contributes a verdict whose
missing fields default to `"YELLOW"` / `"Analyzed"`. -/
def buildReport (analysis_dict : List (String × JsonObj)) :
    List String → List (String × Verdict)
  | [] => []
  | item :: rest =>
    match findMatch analysis_dict item with
    | some fd =>
      if fd.isEmpty then buildReport analysis_dict rest
      else
        (item, ⟨(jget fd "status").getD "YELLOW",
                (jget fd "explanation").getD "Analyzed"⟩)
          :: buildReport analysis_dict rest
    | none => buildReport analysis_dict rest

/-- `call_ai_sync` (audit_logic.py:43-74): on any exception — the API call
failing or the content not being valid JSON — the whole `try` block is
abandoned and `{}` is returned; otherwise the report is built from the
parsed dict. `resp` is the parsed JSON object the model produced, or the
exception. -/
def call_ai_sync (resp : Except String (List (String × JsonObj)))
    (all_items : List String) : List (String × Verdict) :=
  match resp with
  | Except.ok analysis_dict => buildReport analysis_dict all_items
  | Except.error _ => []

/-- Python `report.get(item)` on the per-agent report dict. -/
def vget (m : List (String × Verdict)) (k : String) : Option Verdict :=
  (m.find? (fun kv => kv.1 == k)).map (·.2)

/-- What the external judge model does with (item, status_a, status_b) —
the three values interpolated into TIEBREAKER_PROMPT. `.error` is the
exception path. -/
def Judge := String → String → String → Except String JsonObj

/-- The fixed fallback ruling of audit_logic.py:90 / services.py:187. -/
def fallbackRuling : JsonObj :=
  [("final_status", "YELLOW"), ("final_explanation", "Judge unavailable.")]

/-- `call_tiebreaker` (audit_logic.py:76-90): any exception in the call or
the JSON parse yields the fixed fallback ruling. -/
def call_tiebreaker (judge : Judge) (item : String) (a b : Verdict) :
    JsonObj :=
  match judge item a.status b.status with
  | Except.ok ruling => ruling
  | Except.error _ => fallbackRuling

/-- The Gather + Backfill step of audit_logic.py:97-101: look the item up
in both agents' reports, substitute the other agent's verdict for an empty
slot (`if not a: a = b` / `if not b: b = a`, in that order). -/
def slots (A B : List (String × Verdict)) (item : String) :
    Option Verdict × Option Verdict :=
  let a0 := vget A item
  let b0 := vget B item
  let a1 := if a0.isNone then b0 else a0
  let b1 := if b0.isNone then a1 else b0
  (a1, b1)

/-- `merge_and_judge` (audit_logic.py:92-120, identically
services.py:159-174). Besides the final report (`Except`, since
`ruling['final_status']` / `ruling['final_explanation']` can raise
`KeyError`), the embedding returns the log of tiebreaker invocations
`(item, status_a, status_b)` made, in order, up to the point where an
exception aborts the loop. -/
def merge_and_judge (judge : Judge) :
    List String → List (String × Verdict) → List (String × Verdict) →
    Except String (List FinalVerdict) × List (String × String × String)
  | [], _, _ => (Except.ok [], [])
  | item :: rest, A, B =>
    match slots A B item with
    | (none, _) => merge_and_judge judge rest A B
    | (some _, none) =>
      -- unreachable: the second slot is only empty when the first is
      (Except.error "TypeError: NoneType is not subscriptable", [])
    | (some a, some b) =>
      if a.status == b.status then
        ((merge_and_judge judge rest A B).1.map
           (fun l => ⟨item, a.status, a.explanation, true⟩ :: l),
         (merge_and_judge judge rest A B).2)
      else
        match jindex (call_tiebreaker judge item a b) "final_status" with
        | Except.error e => (Except.error e, [(item, a.status, b.status)])
        | Except.ok st =>
          match jindex (call_tiebreaker judge item a b) "final_explanation" with
          | Except.error e => (Except.error e, [(item, a.status, b.status)])
          | Except.ok ex =>
            ((merge_and_judge judge rest A B).1.map
               (fun l => ⟨item, st, ex, false⟩ :: l),
             (item, a.status, b.status) :: (merge_and_judge judge rest A B).2)

/-- The dynamic return shape of `run_greenwash_audit`: the empty
short-circuit returns the pair `([], "No items to analyze.")`, the main
path returns the final-results list alone. -/
inductive AuditReturn where
  | pair : List FinalVerdict → String → AuditReturn
  | report : List FinalVerdict → AuditReturn
deriving Repr, DecidableEq

/-- One external model invocation made by the pipeline. -/
inductive CallEvent where
  | classifier : String → CallEvent
  | arbiter : String → String → String → CallEvent
  | logistics : CallEvent
  | summarizer : CallEvent
deriving Repr, DecidableEq

/-- `run_greenwash_audit` (audit_logic.py:122-138): concatenate
ingredients and claims; on an empty item set return the fixed pair,
otherwise dispatch both classifier agents, merge, and return the list.
The second component logs every external call made. -/
def run_greenwash_audit
    (agentA agentB : Except String (List (String × JsonObj)))
    (judge : Judge) (ingredients claims : List String) :
    Except String AuditReturn × List CallEvent :=
  let all_items := ingredients ++ claims
  if all_items.isEmpty then
    (Except.ok (AuditReturn.pair [] "No items to analyze."), [])
  else
    ((merge_and_judge judge all_items
        (call_ai_sync agentA all_items)
        (call_ai_sync agentB all_items)).1.map AuditReturn.report,
     CallEvent.classifier "llama-3.3-70b-versatile"
       :: CallEvent.classifier "llama-3.1-8b-instant"
       :: (merge_and_judge judge all_items
             (call_ai_sync agentA all_items)
             (call_ai_sync agentB all_items)).2.map
            (fun c => CallEvent.arbiter c.1 c.2.1 c.2.2))

/-- `analyze_logistics` (services.py:89-102): empty or "Unknown" origin
text short-circuits with a fixed dict and no call; otherwise the model is
called, with a fixed dict on failure. `is_local: false` is encoded as the
string "false". -/
def analyze_logistics (logisticsResp : Except String JsonObj)
    (origin_text : String) : JsonObj × List CallEvent :=
  if origin_text == "" || origin_text == "Unknown" then
    ([("origin", "Unknown"), ("is_local", "false"),
      ("roast", "Origin hidden, suspicious.")], [])
  else
    match logisticsResp with
    | Except.ok r => (r, [CallEvent.logistics])
    | Except.error _ =>
      ([("origin", "Unknown"), ("is_local", "false"),
        ("roast", "Logistics AI unavailable.")], [CallEvent.logistics])

/-- `generate_witty_summary` (services.py:190-207): empty results
short-circuit without a call; otherwise the model's stripped content, or a
fixed line on failure. -/
def generate_witty_summary (summaryResp : Except String String)
    (final_results : List FinalVerdict) : String × List CallEvent :=
  if final_results.isEmpty then ("I couldn't read the label.", [])
  else
    match summaryResp with
    | Except.ok s => (s.trim, [CallEvent.summarizer])
    | Except.error _ => ("The AI is speechless.", [CallEvent.summarizer])

/-- The external calls made by the non-empty path of
`analyze_ingredients_parallel` before the summary step: the two classifier
agents, the logistics call (when its short-circuit does not apply) and the
tiebreaker calls made by `merge_and_judge`. -/
def analyzeCalls (judge : Judge)
    (agentA agentB : Except String (List (String × JsonObj)))
    (logisticsResp : Except String JsonObj)
    (origin_text : String) (all_items : List String) : List CallEvent :=
  CallEvent.classifier "llama-3.3-70b-versatile"
    :: CallEvent.classifier "llama-3.1-8b-instant"
    :: ((analyze_logistics logisticsResp origin_text).2
        ++ (merge_and_judge judge all_items
              (call_ai_sync agentA all_items)
              (call_ai_sync agentB all_items)).2.map
             (fun c => CallEvent.arbiter c.1 c.2.1 c.2.2))

/-- `analyze_ingredients_parallel` (services.py:105-128): the services.py
entry point. Empty item set returns `([], {}, "No ingredients found.")`
before any task is created; otherwise both agents, logistics, merge and
summary run, and the triple is returned. -/
def analyze_ingredients_parallel
    (agentA agentB : Except String (List (String × JsonObj)))
    (judge : Judge) (logisticsResp : Except String JsonObj)
    (summaryResp : Except String String)
    (ingredients claims : List String) (origin_text : String) :
    Except String (List FinalVerdict × JsonObj × String) × List CallEvent :=
  let all_items := ingredients ++ claims
  if all_items.isEmpty then
    (Except.ok ([], [], "No ingredients found."), [])
  else
    match (merge_and_judge judge all_items
            (call_ai_sync agentA all_items)
            (call_ai_sync agentB all_items)).1 with
    | Except.error e =>
      (Except.error e, analyzeCalls judge agentA agentB logisticsResp
        origin_text all_items)
    | Except.ok fr =>
      (Except.ok (fr, (analyze_logistics logisticsResp origin_text).1,
         (generate_witty_summary summaryResp fr).1),
       analyzeCalls judge agentA agentB logisticsResp origin_text all_items
         ++ (generate_witty_summary summaryResp fr).2)

/-! ### Helper lemmas -/

lemma vget_cons (k : String) (w : Verdict) (m : List (String × Verdict))
    (item : String) :
    vget ((k, w) :: m) item = if k == item then some w else vget m item := by
  cases hk : (k == item) <;> simp [vget, List.find?, hk]

lemma slots_snd_none (A B : List (String × Verdict)) (item : String)
    (a : Verdict) : slots A B item ≠ (some a, none) := by
  unfold slots
  cases ha : vget A item <;> cases hb : vget B item <;> simp [ha, hb]

lemma except_map_ok {ε : Type} {α β : Type} (f : α → β) (r : Except ε α)
    (y : β) (h : r.map f = Except.ok y) : ∃ x, r = Except.ok x ∧ y = f x := by
  cases r with
  | ok x =>
    refine ⟨x, rfl, ?_⟩
    have : Except.ok (ε := ε) (f x) = Except.ok y := h
    cases this
    rfl
  | error e => simp [Except.map] at h

lemma merge_cons_skip (judge : Judge) (item : String) (rest : List String)
    (A B : List (String × Verdict)) (o : Option Verdict)
    (hs : slots A B item = (none, o)) :
    merge_and_judge judge (item :: rest) A B =
      merge_and_judge judge rest A B := by
  simp only [merge_and_judge]
  rw [hs]

lemma merge_cons_agree (judge : Judge) (item : String) (rest : List String)
    (A B : List (String × Verdict)) (a b : Verdict)
    (r : Except String (List FinalVerdict))
    (log : List (String × String × String))
    (hs : slots A B item = (some a, some b)) (heq : a.status = b.status)
    (hm : merge_and_judge judge rest A B = (r, log)) :
    merge_and_judge judge (item :: rest) A B =
      (r.map (fun l => ⟨item, a.status, a.explanation, true⟩ :: l), log) := by
  have hc : (a.status == b.status) = true := beq_iff_eq.mpr heq
  simp only [merge_and_judge]
  rw [hs]
  simp [hc, hm]

lemma merge_cons_conflict (judge : Judge) (item : String) (rest : List String)
    (A B : List (String × Verdict)) (a b : Verdict) (st ex : String)
    (r : Except String (List FinalVerdict))
    (log : List (String × String × String))
    (hs : slots A B item = (some a, some b)) (hne : a.status ≠ b.status)
    (hst : jindex (call_tiebreaker judge item a b) "final_status" =
      Except.ok st)
    (hex : jindex (call_tiebreaker judge item a b) "final_explanation" =
      Except.ok ex)
    (hm : merge_and_judge judge rest A B = (r, log)) :
    merge_and_judge judge (item :: rest) A B =
      (r.map (fun l => ⟨item, st, ex, false⟩ :: l),
       (item, a.status, b.status) :: log) := by
  have hc : (a.status == b.status) = false := beq_eq_false_iff_ne.mpr hne
  simp only [merge_and_judge]
  rw [hs]
  simp [hc, hst, hex, hm]

lemma merge_cons_conflict_errSt (judge : Judge) (item : String)
    (rest : List String) (A B : List (String × Verdict)) (a b : Verdict)
    (e : String)
    (hs : slots A B item = (some a, some b)) (hne : a.status ≠ b.status)
    (hst : jindex (call_tiebreaker judge item a b) "final_status" =
      Except.error e) :
    merge_and_judge judge (item :: rest) A B =
      (Except.error e, [(item, a.status, b.status)]) := by
  have hc : (a.status == b.status) = false := beq_eq_false_iff_ne.mpr hne
  simp only [merge_and_judge]
  rw [hs]
  simp [hc, hst]

lemma merge_cons_conflict_errEx (judge : Judge) (item : String)
    (rest : List String) (A B : List (String × Verdict)) (a b : Verdict)
    (st e : String)
    (hs : slots A B item = (some a, some b)) (hne : a.status ≠ b.status)
    (hst : jindex (call_tiebreaker judge item a b) "final_status" =
      Except.ok st)
    (hex : jindex (call_tiebreaker judge item a b) "final_explanation" =
      Except.error e) :
    merge_and_judge judge (item :: rest) A B =
      (Except.error e, [(item, a.status, b.status)]) := by
  have hc : (a.status == b.status) = false := beq_eq_false_iff_ne.mpr hne
  simp only [merge_and_judge]
  rw [hs]
  simp [hc, hst, hex]

/-- Inversion for a successful merge over a non-empty item list: either the
head item had no verdict from either agent and was skipped, or the report
starts with a verdict named after the head item, produced from a head item
that had at least one slot filled. -/
lemma merge_cons_ok_inversion (judge : Judge) (it : String)
    (rest : List String) (A B : List (String × Verdict))
    (report : List FinalVerdict)
    (h : (merge_and_judge judge (it :: rest) A B).1 = Except.ok report) :
    ((slots A B it).1 = none
      ∧ (merge_and_judge judge rest A B).1 = Except.ok report)
    ∨ (∃ fv rep, fv.name = it ∧ (slots A B it).1 ≠ none
        ∧ (merge_and_judge judge rest A B).1 = Except.ok rep
        ∧ report = fv :: rep) := by
  rcases hs : slots A B it with ⟨a1, b1⟩
  cases a1 with
  | none =>
    left
    refine ⟨rfl, ?_⟩
    rw [← merge_cons_skip judge it rest A B b1 hs]
    exact h
  | some a =>
    cases b1 with
    | none => exact absurd hs (slots_snd_none A B it a)
    | some b =>
      right
      by_cases heq : a.status = b.status
      · rw [merge_cons_agree judge it rest A B a b
            (merge_and_judge judge rest A B).1
            (merge_and_judge judge rest A B).2 hs heq rfl] at h
        replace h : (merge_and_judge judge rest A B).1.map
            (fun l => (⟨it, a.status, a.explanation, true⟩ : FinalVerdict)
              :: l) = Except.ok report := h
        obtain ⟨rep, hrep, hform⟩ := except_map_ok _ _ _ h
        exact ⟨⟨it, a.status, a.explanation, true⟩, rep, rfl,
          by simp, hrep, hform⟩
      · cases hst : jindex (call_tiebreaker judge it a b) "final_status" with
        | error e =>
          rw [merge_cons_conflict_errSt judge it rest A B a b e hs heq hst]
            at h
          simp at h
        | ok st =>
          cases hex : jindex (call_tiebreaker judge it a b)
              "final_explanation" with
          | error e =>
            rw [merge_cons_conflict_errEx judge it rest A B a b st e hs heq
              hst hex] at h
            simp at h
          | ok ex =>
            rw [merge_cons_conflict judge it rest A B a b st ex
                (merge_and_judge judge rest A B).1
                (merge_and_judge judge rest A B).2 hs heq hst hex rfl] at h
            replace h : (merge_and_judge judge rest A B).1.map
                (fun l => (⟨it, st, ex, false⟩ : FinalVerdict) :: l)
                  = Except.ok report := h
            obtain ⟨rep, hrep, hform⟩ := except_map_ok _ _ _ h
            exact ⟨⟨it, st, ex, false⟩, rep, rfl, by simp, hrep,
              hform⟩

/-! ### Claim theorems -/

/-- C1 counterexample: the claim says any agent-returned status outside
{RED, YELLOW, GREEN} is normalized to YELLOW before it can appear in a
FinalVerdict. It is false: when both agents return the free-form status
"MAYBE" for "Apple", the final report carries a FinalVerdict whose status
is "MAYBE", which is none of the three enumerated values. -/
theorem C1_counterexample :
    (run_greenwash_audit
        (Except.ok [("Apple", [("status", "MAYBE"), ("explanation", "odd")])])
        (Except.ok [("Apple", [("status", "MAYBE"), ("explanation", "odd")])])
        (fun _ _ _ => Except.error "down") ["Apple"] []).1
      = Except.ok (AuditReturn.report
          [{ name := "Apple", status := "MAYBE", explanation := "odd",
             consensus := true }])
    ∧ "MAYBE" ≠ "RED" ∧ "MAYBE" ≠ "YELLOW" ∧ "MAYBE" ≠ "GREEN" :=
  ⟨rfl, by decide, by decide, by decide⟩

/-- C1 (amended): only an omitted status field is normalized to YELLOW by
the result-matching step; a status string the agent does return is passed
through unvalidated, whatever it is. Every verdict the per-agent report
assigns to an item carries either exactly the status string of the matched
object, or "YELLOW" when the matched object has no status field. -/
theorem C1_status_default_only_when_omitted
    (d : List (String × JsonObj)) (items : List String) (item : String)
    (v : Verdict) (h : vget (buildReport d items) item = some v) :
    (∃ fd s, findMatch d item = some fd ∧ jget fd "status" = some s ∧
       v.status = s)
    ∨ ((∃ fd, findMatch d item = some fd ∧ jget fd "status" = none) ∧
       v.status = "YELLOW") := by
  induction items with
  | nil => simp [vget, buildReport, List.find?] at h
  | cons it rest ih =>
    simp only [buildReport] at h
    cases hf : findMatch d it with
    | none => simp only [hf] at h; exact ih h
    | some fd =>
      simp only [hf] at h
      by_cases he : fd.isEmpty
      · rw [if_pos he] at h; exact ih h
      · rw [if_neg he, vget_cons] at h
        by_cases hit : it = item
        · subst hit
          rw [if_pos (beq_self_eq_true it)] at h
          have hv : v = ⟨(jget fd "status").getD "YELLOW",
              (jget fd "explanation").getD "Analyzed"⟩ :=
            (Option.some_inj.mp h).symm
          cases hsf : jget fd "status" with
          | some s =>
            exact Or.inl ⟨fd, s, hf, hsf, by rw [hv]; simp [hsf]⟩
          | none =>
            exact Or.inr ⟨⟨fd, hf, hsf⟩, by rw [hv]; simp [hsf]⟩
        · rw [if_neg (by simp [hit])] at h
          exact ih h

/-- C1 witness: a returned object for "Apple" that omits the status field
yields the default status "YELLOW". -/
theorem C1_witness :
    (∃ fd s, findMatch [("Apple", [("explanation", "fruit")])] "Apple"
        = some fd ∧ jget fd "status" = some s
        ∧ (Verdict.mk "YELLOW" "fruit").status = s)
    ∨ ((∃ fd, findMatch [("Apple", [("explanation", "fruit")])] "Apple"
          = some fd ∧ jget fd "status" = none)
        ∧ (Verdict.mk "YELLOW" "fruit").status = "YELLOW") :=
  C1_status_default_only_when_omitted [("Apple", [("explanation", "fruit")])]
    ["Apple"] "Apple" ⟨"YELLOW", "fruit"⟩ rfl

/-- C5: spec and claim require that an arbiter result which is valid JSON
but lacks the final_status key still lets merge_and_judge return a
complete report without raising. The code instead subscripts
`ruling['final_status']`, which raises KeyError and aborts the request:
with agents disagreeing on "Beef" (RED vs GREEN) and the arbiter returning
the valid JSON object `{}`, the merge aborts with a KeyError. -/
theorem C5_arbiter_missing_key_raises :
    (merge_and_judge (fun _ _ _ => Except.ok ([] : JsonObj)) ["Beef"]
        [("Beef", ⟨"RED", "high carbon"⟩)]
        [("Beef", ⟨"GREEN", "grass fed"⟩)]).1
      = Except.error "KeyError: final_status" := rfl

/-- C6 counterexample: the claim says each AuditItem appears at most once
in the final report even when the item set preserves duplicate strings.
It is false: submitting the item "Sugar" twice (both agents giving it a
RED verdict) produces a report in which two FinalVerdicts carry the name
"Sugar". -/
theorem C6_counterexample :
    (run_greenwash_audit
        (Except.ok [("Sugar", [("status", "RED"), ("explanation", "refined")])])
        (Except.ok [("Sugar", [("status", "RED"), ("explanation", "refined")])])
        (fun _ _ _ => Except.error "down") ["Sugar", "Sugar"] []).1
      = Except.ok (AuditReturn.report
          [⟨"Sugar", "RED", "refined", true⟩,
           ⟨"Sugar", "RED", "refined", true⟩])
    ∧ (([⟨"Sugar", "RED", "refined", true⟩,
         ⟨"Sugar", "RED", "refined", true⟩] : List FinalVerdict).countP
          (fun fv => fv.name == "Sugar")) = 2 :=
  ⟨rfl, rfl⟩

/-- C8: with both the ingredients and the claims list empty, both entry
points short-circuit: `run_greenwash_audit` returns the fixed pair
`([], "No items to analyze.")` and `analyze_ingredients_parallel` returns
`([], {}, "No ingredients found.")`, and in both cases the call log is
empty — no classifier, arbiter, logistics or summarizer call is made,
whatever the external services would have answered. -/
theorem C8_empty_input_short_circuit
    (agentA agentB : Except String (List (String × JsonObj))) (judge : Judge)
    (logisticsResp : Except String JsonObj)
    (summaryResp : Except String String) (origin_text : String) :
    run_greenwash_audit agentA agentB judge [] []
      = (Except.ok (AuditReturn.pair [] "No items to analyze."), [])
    ∧ analyze_ingredients_parallel agentA agentB judge logisticsResp
        summaryResp [] [] origin_text
      = (Except.ok ([], [], "No ingredients found."), []) :=
  ⟨rfl, rfl⟩

/-- C2: when every Arbiter call fails, the request still succeeds: the
merge returns a complete report, every non-consensus FinalVerdict in it
has status YELLOW and the explanation "Judge unavailable.", and every item
on which the two agents' (backfilled) statuses differ contributes exactly
that fallback FinalVerdict — regardless of what the agents returned. -/
theorem C2_arbiter_failure_fallback (e : String) (judge : Judge)
    (hj : ∀ i sa sb, judge i sa sb = Except.error e)
    (items : List String) (A B : List (String × Verdict)) :
    ∃ report, (merge_and_judge judge items A B).1 = Except.ok report
      ∧ (∀ fv ∈ report, fv.consensus = false →
           fv.status = "YELLOW" ∧ fv.explanation = "Judge unavailable.")
      ∧ (∀ item ∈ items, ∀ a b, slots A B item = (some a, some b) →
           a.status ≠ b.status →
           (⟨item, "YELLOW", "Judge unavailable.", false⟩ : FinalVerdict)
             ∈ report) := by
  induction items with
  | nil => exact ⟨[], rfl, by simp, by simp⟩
  | cons it rest ih =>
    obtain ⟨rep, h1, h2, h3⟩ := ih
    have hm : merge_and_judge judge rest A B =
        (Except.ok rep, (merge_and_judge judge rest A B).2) := by
      rw [← h1]
    rcases hs : slots A B it with ⟨a1, b1⟩
    cases a1 with
    | none =>
      refine ⟨rep, ?_, h2, ?_⟩
      · rw [merge_cons_skip judge it rest A B b1 hs]; exact h1
      · intro item hmem a b hsl hne
        rcases List.mem_cons.mp hmem with hq | hq
        · subst hq; rw [hs] at hsl; simp at hsl
        · exact h3 item hq a b hsl hne
    | some a =>
      cases b1 with
      | none => exact absurd hs (slots_snd_none A B it a)
      | some b =>
        by_cases hstat : a.status = b.status
        · refine ⟨⟨it, a.status, a.explanation, true⟩ :: rep, ?_, ?_, ?_⟩
          · rw [merge_cons_agree judge it rest A B a b (Except.ok rep)
              (merge_and_judge judge rest A B).2 hs hstat hm]
            rfl
          · intro fv hmem hcons
            rcases List.mem_cons.mp hmem with hq | hq
            · rw [hq] at hcons; simp at hcons
            · exact h2 fv hq hcons
          · intro item hmem a' b' hsl hne
            rcases List.mem_cons.mp hmem with hq | hq
            · subst hq
              rw [hs] at hsl
              injection hsl with ha' hb'
              injection ha' with ha'
              injection hb' with hb'
              exact absurd (ha' ▸ hb' ▸ hstat) hne
            · exact List.mem_cons_of_mem _ (h3 item hq a' b' hsl hne)
        · have hct : call_tiebreaker judge it a b = fallbackRuling := by
            unfold call_tiebreaker; rw [hj]
          refine ⟨⟨it, "YELLOW", "Judge unavailable.", false⟩ :: rep,
            ?_, ?_, ?_⟩
          · rw [merge_cons_conflict judge it rest A B a b "YELLOW"
              "Judge unavailable." (Except.ok rep)
              (merge_and_judge judge rest A B).2 hs hstat
              (by rw [hct]; rfl) (by rw [hct]; rfl) hm]
            rfl
          · intro fv hmem hcons
            rcases List.mem_cons.mp hmem with hq | hq
            · rw [hq]; exact ⟨rfl, rfl⟩
            · exact h2 fv hq hcons
          · intro item hmem a' b' hsl hne
            rcases List.mem_cons.mp hmem with hq | hq
            · subst hq; exact List.mem_cons_self _ _
            · exact List.mem_cons_of_mem _ (h3 item hq a' b' hsl hne)

/-- C2 witness: agents disagreeing RED vs GREEN on "Beef" with the arbiter
down still yields a successful report whose conflicted entry is the
YELLOW / "Judge unavailable." fallback. -/
theorem C2_witness :
    ∃ report,
      (merge_and_judge (fun _ _ _ => Except.error "down") ["Beef"]
          [("Beef", ⟨"RED", "high carbon"⟩)]
          [("Beef", ⟨"GREEN", "grass fed"⟩)]).1 = Except.ok report
      ∧ (∀ fv ∈ report, fv.consensus = false →
           fv.status = "YELLOW" ∧ fv.explanation = "Judge unavailable.")
      ∧ (∀ item ∈ ["Beef"], ∀ a b,
           slots [("Beef", ⟨"RED", "high carbon"⟩)]
             [("Beef", ⟨"GREEN", "grass fed"⟩)] item = (some a, some b) →
           a.status ≠ b.status →
           (⟨item, "YELLOW", "Judge unavailable.", false⟩ : FinalVerdict)
             ∈ report) :=
  C2_arbiter_failure_fallback "down" (fun _ _ _ => Except.error "down")
    (fun _ _ _ => rfl) ["Beef"]
    [("Beef", ⟨"RED", "high carbon"⟩)] [("Beef", ⟨"GREEN", "grass fed"⟩)]

/-- C3: per-item consensus and arbitration. When both slots hold verdicts
with equal statuses, the emitted FinalVerdict is consensus=true with agent
A's status and explanation, and the arbiter log is untouched (no call);
when the statuses differ and the arbiter's ruling carries both keys, the
emitted FinalVerdict is consensus=false with the arbiter's status and
explanation, and exactly one arbiter invocation for that item is prepended
to the log; and when the (backfilled) slots agree on every item, the
arbiter log is empty — zero arbiter calls — and every FinalVerdict in the
report has consensus=true. -/
theorem C3_consensus_and_arbitration :
    (∀ (judge : Judge) (item : String) (rest : List String)
       (A B : List (String × Verdict)) (a b : Verdict),
       slots A B item = (some a, some b) → a.status = b.status →
       merge_and_judge judge (item :: rest) A B =
         ((merge_and_judge judge rest A B).1.map
            (fun l => ⟨item, a.status, a.explanation, true⟩ :: l),
          (merge_and_judge judge rest A B).2))
    ∧ (∀ (judge : Judge) (item : String) (rest : List String)
       (A B : List (String × Verdict)) (a b : Verdict) (st ex : String),
       slots A B item = (some a, some b) → a.status ≠ b.status →
       jindex (call_tiebreaker judge item a b) "final_status" =
         Except.ok st →
       jindex (call_tiebreaker judge item a b) "final_explanation" =
         Except.ok ex →
       merge_and_judge judge (item :: rest) A B =
         ((merge_and_judge judge rest A B).1.map
            (fun l => ⟨item, st, ex, false⟩ :: l),
          (item, a.status, b.status) :: (merge_and_judge judge rest A B).2))
    ∧ (∀ (judge : Judge) (items : List String)
       (A B : List (String × Verdict)),
       (∀ item ∈ items, ∀ a b : Verdict,
          slots A B item = (some a, some b) → a.status = b.status) →
       (merge_and_judge judge items A B).2 = []
       ∧ ∃ report, (merge_and_judge judge items A B).1 = Except.ok report
           ∧ ∀ fv ∈ report, fv.consensus = true) := by
  refine ⟨?_, ?_, ?_⟩
  · intro judge item rest A B a b hs heq
    exact merge_cons_agree judge item rest A B a b _ _ hs heq rfl
  · intro judge item rest A B a b st ex hs hne hst hex
    exact merge_cons_conflict judge item rest A B a b st ex _ _ hs hne hst
      hex rfl
  · intro judge items A B
    induction items with
    | nil => intro _; exact ⟨rfl, [], rfl, by simp⟩
    | cons it rest ih =>
      intro hagree
      obtain ⟨hlog, rep, h1, h2⟩ := ih (fun item hmem a b hsl =>
        hagree item (List.mem_cons_of_mem _ hmem) a b hsl)
      have hm : merge_and_judge judge rest A B = (Except.ok rep, []) := by
        rw [← h1, ← hlog]
      rcases hs : slots A B it with ⟨a1, b1⟩
      cases a1 with
      | none =>
        rw [merge_cons_skip judge it rest A B b1 hs]
        exact ⟨hlog, rep, h1, h2⟩
      | some a =>
        cases b1 with
        | none => exact absurd hs (slots_snd_none A B it a)
        | some b =>
          have heq : a.status = b.status :=
            hagree it (List.mem_cons_self _ _) a b hs
          rw [merge_cons_agree judge it rest A B a b (Except.ok rep) [] hs
            heq hm]
          refine ⟨rfl, ⟨it, a.status, a.explanation, true⟩ :: rep, rfl, ?_⟩
          intro fv hmem
          rcases List.mem_cons.mp hmem with hq | hq
          · rw [hq]
          · exact h2 fv hq

/-- C3 witness: both agents giving "Palm Oil" the same RED verdict produce
an empty arbiter log and a report whose only entry is consensus=true. -/
theorem C3_witness :
    (merge_and_judge (fun _ _ _ => Except.error "down") ["Palm Oil"]
        [("Palm Oil", ⟨"RED", "deforestation risk"⟩)]
        [("Palm Oil", ⟨"RED", "deforestation risk"⟩)]).2 = []
    ∧ ∃ report,
        (merge_and_judge (fun _ _ _ => Except.error "down") ["Palm Oil"]
            [("Palm Oil", ⟨"RED", "deforestation risk"⟩)]
            [("Palm Oil", ⟨"RED", "deforestation risk"⟩)]).1
          = Except.ok report
        ∧ ∀ fv ∈ report, fv.consensus = true :=
  C3_consensus_and_arbitration.2.2 (fun _ _ _ => Except.error "down")
    ["Palm Oil"] [("Palm Oil", ⟨"RED", "deforestation risk"⟩)]
    [("Palm Oil", ⟨"RED", "deforestation risk"⟩)]
    (by
      intro item hmem a b hsl
      rcases List.mem_cons.mp hmem with hq | hq
      · subst hq
        rw [show slots
            [("Palm Oil", (⟨"RED", "deforestation risk"⟩ : Verdict))]
            [("Palm Oil", (⟨"RED", "deforestation risk"⟩ : Verdict))]
            "Palm Oil"
            = (some ⟨"RED", "deforestation risk"⟩,
               some ⟨"RED", "deforestation risk"⟩) from rfl] at hsl
        injection hsl with ha hb
        injection ha with ha
        injection hb with hb
        rw [← ha, ← hb]
      · simp at hq)

/-- C4: single-opinion backfill and silent drop. When only agent A (resp.
only agent B) has a verdict for the head item, the emitted FinalVerdict is
that agent's status and explanation with consensus=true and the arbiter
log is untouched; an item for which neither agent has a verdict never
names a report entry; and the report is never longer than the item set. -/
theorem C4_single_opinion_and_drop :
    (∀ (judge : Judge) (item : String) (rest : List String)
       (A B : List (String × Verdict)) (a : Verdict),
       vget A item = some a → vget B item = none →
       merge_and_judge judge (item :: rest) A B =
         ((merge_and_judge judge rest A B).1.map
            (fun l => ⟨item, a.status, a.explanation, true⟩ :: l),
          (merge_and_judge judge rest A B).2))
    ∧ (∀ (judge : Judge) (item : String) (rest : List String)
       (A B : List (String × Verdict)) (b : Verdict),
       vget A item = none → vget B item = some b →
       merge_and_judge judge (item :: rest) A B =
         ((merge_and_judge judge rest A B).1.map
            (fun l => ⟨item, b.status, b.explanation, true⟩ :: l),
          (merge_and_judge judge rest A B).2))
    ∧ (∀ (judge : Judge) (items : List String)
       (A B : List (String × Verdict)) (item : String)
       (report : List FinalVerdict),
       vget A item = none → vget B item = none →
       (merge_and_judge judge items A B).1 = Except.ok report →
       ∀ fv ∈ report, fv.name ≠ item)
    ∧ (∀ (judge : Judge) (items : List String)
       (A B : List (String × Verdict)) (report : List FinalVerdict),
       (merge_and_judge judge items A B).1 = Except.ok report →
       report.length ≤ items.length) := by
  refine ⟨?_, ?_, ?_, ?_⟩
  · intro judge item rest A B a ha hb
    have hs : slots A B item = (some a, some a) := by
      simp [slots, ha, hb]
    exact merge_cons_agree judge item rest A B a a _ _ hs rfl rfl
  · intro judge item rest A B b ha hb
    have hs : slots A B item = (some b, some b) := by
      simp [slots, ha, hb]
    exact merge_cons_agree judge item rest A B b b _ _ hs rfl rfl
  · intro judge items A B item
    induction items with
    | nil =>
      intro report _ _ h fv hmem
      have h' : Except.ok ([] : List FinalVerdict) = Except.ok report := h
      injection h' with h''
      rw [← h''] at hmem
      simp at hmem
    | cons it rest ih =>
      intro report ha hb h fv hmem
      rcases merge_cons_ok_inversion judge it rest A B report h with
        ⟨_, hrest⟩ | ⟨fv', rep, hname, hslot, hrest, hform⟩
      · exact ih report ha hb hrest fv hmem
      · subst hform
        rcases List.mem_cons.mp hmem with hq | hq
        · rw [hq, hname]
          intro hit
          subst hit
          have hnn : slots A B it = (none, none) := by
            simp [slots, ha, hb]
          rw [hnn] at hslot
          simp at hslot
        · exact ih rep ha hb hrest fv hq
  · intro judge items A B
    induction items with
    | nil =>
      intro report h
      have h' : Except.ok ([] : List FinalVerdict) = Except.ok report := h
      injection h' with h''
      rw [← h'']
      exact Nat.le_refl _
    | cons it rest ih =>
      intro report h
      rcases merge_cons_ok_inversion judge it rest A B report h with
        ⟨_, hrest⟩ | ⟨fv', rep, _, _, hrest, hform⟩
      · exact Nat.le_succ_of_le (ih report hrest)
      · subst hform
        simpa using Nat.succ_le_succ (ih rep hrest)

/-- C4 witness: with only agent A holding a RED verdict for "Beef" and
agent B holding none, the merge emits agent A's verdict with
consensus=true and no arbiter call. -/
theorem C4_witness :
    merge_and_judge (fun _ _ _ => Except.error "down") ["Beef"]
        [("Beef", ⟨"RED", "high carbon"⟩)] [] =
      ((merge_and_judge (fun _ _ _ => Except.error "down") []
          [("Beef", ⟨"RED", "high carbon"⟩)] []).1.map
         (fun l => ⟨"Beef", "RED", "high carbon", true⟩ :: l),
       (merge_and_judge (fun _ _ _ => Except.error "down") []
          [("Beef", ⟨"RED", "high carbon"⟩)] []).2) :=
  C4_single_opinion_and_drop.1 (fun _ _ _ => Except.error "down") "Beef" []
    [("Beef", ⟨"RED", "high carbon"⟩)] [] ⟨"RED", "high carbon"⟩ rfl rfl

/-- Each occurrence of an item in the merge loop contributes at most one
report entry, carrying that item's name, in order: the report's name
sequence is a subsequence of the item list. -/
lemma merge_names_sublist (judge : Judge) (items : List String)
    (A B : List (String × Verdict)) :
    ∀ report : List FinalVerdict,
      (merge_and_judge judge items A B).1 = Except.ok report →
      (report.map FinalVerdict.name).Sublist items := by
  induction items with
  | nil =>
    intro report h
    have h' : Except.ok ([] : List FinalVerdict) = Except.ok report := h
    injection h' with h''
    rw [← h'']
    simp
  | cons it rest ih =>
    intro report h
    rcases merge_cons_ok_inversion judge it rest A B report h with
      ⟨_, hrest⟩ | ⟨fv', rep, hname, _, hrest, hform⟩
    · exact (ih report hrest).cons it
    · subst hform
      simp only [List.map_cons, hname]
      exact (ih rep hrest).cons₂ it

/-- C6 (amended): each occurrence of an item in the submitted item set
yields at most one report entry, in order — the report's name sequence is
a subsequence of the item set. Hence an item occurring k times appears at
most k times, and when the item set has no duplicate strings every
AuditItem appears at most once; but a duplicated item is reported once per
occurrence (see the counterexample). -/
theorem C6_report_names_subsequence (judge : Judge) (items : List String)
    (A B : List (String × Verdict)) (report : List FinalVerdict)
    (h : (merge_and_judge judge items A B).1 = Except.ok report) :
    (report.map FinalVerdict.name).Sublist items
    ∧ (items.Nodup →
        ∀ item, (report.map FinalVerdict.name).count item ≤ 1) := by
  have hsub := merge_names_sublist judge items A B report h
  exact ⟨hsub, fun hnd item =>
    List.nodup_iff_count_le_one.mp (hnd.sublist hsub) item⟩

/-- C6 witness: a duplicate-free two-item set yields a report whose names
form a subsequence of the item set, each appearing at most once. -/
theorem C6_witness :
    ((([⟨"Sugar", "RED", "refined", true⟩,
        ⟨"Soy", "GREEN", "plant", true⟩] : List FinalVerdict).map
        FinalVerdict.name).Sublist ["Sugar", "Soy"])
    ∧ ((["Sugar", "Soy"] : List String).Nodup →
        ∀ item, (([⟨"Sugar", "RED", "refined", true⟩,
            ⟨"Soy", "GREEN", "plant", true⟩] : List FinalVerdict).map
            FinalVerdict.name).count item ≤ 1) :=
  C6_report_names_subsequence (fun _ _ _ => Except.error "down")
    ["Sugar", "Soy"]
    [("Sugar", ⟨"RED", "refined"⟩), ("Soy", ⟨"GREEN", "plant"⟩)]
    [("Sugar", ⟨"RED", "refined"⟩), ("Soy", ⟨"GREEN", "plant"⟩)]
    [⟨"Sugar", "RED", "refined", true⟩, ⟨"Soy", "GREEN", "plant", true⟩]
    rfl

/-- `infixOf` decides contiguous-substring containment. -/
lemma infixOf_iff (n : List Char) : ∀ h : List Char,
    infixOf n h = true ↔ n <:+: h := by
  intro h
  induction h with
  | nil => simp [infixOf, List.isEmpty_iff, List.infix_nil]
  | cons c rest ih =>
    simp only [infixOf, Bool.or_eq_true, ih, List.infix_cons_iff]
    simp [ List.isPrefixOf_iff_prefix]

/-- C7: the result-matching step. The match condition accepts a returned
key iff either lower-cased string is a contiguous substring of the other;
the verdict accepted for an item is that of the first matching key in the
returned mapping's enumeration order — even when a better (e.g. exact)
match occurs later — built from that key's object with the field defaults;
and an item matching no returned key receives no verdict from that
agent. -/
theorem C7_first_match_wins :
    (∀ item key : String, matchKey item key = true ↔
       (lowerChars item <:+: lowerChars key
        ∨ lowerChars key <:+: lowerChars item))
    ∧ (∀ (d1 d2 : List (String × JsonObj)) (k : String) (fd : JsonObj)
         (item : String) (items : List String),
       (∀ kv ∈ d1, matchKey item kv.1 = false) → matchKey item k = true →
       fd ≠ [] → item ∈ items →
       vget (buildReport (d1 ++ (k, fd) :: d2) items) item
         = some ⟨(jget fd "status").getD "YELLOW",
                 (jget fd "explanation").getD "Analyzed"⟩)
    ∧ (∀ (d : List (String × JsonObj)) (item : String)
         (items : List String),
       (∀ kv ∈ d, matchKey item kv.1 = false) →
       vget (buildReport d items) item = none) := by
  refine ⟨?_, ?_, ?_⟩
  · intro item key
    simp [matchKey, substrCI, Bool.or_eq_true, infixOf_iff]
  · intro d1 d2 k fd item items h1 hk hne hmem
    have hfm : findMatch (d1 ++ (k, fd) :: d2) item = some fd := by
      unfold findMatch
      rw [List.find?_append]
      have hnone : d1.find? (fun kv => matchKey item kv.1) = none :=
        List.find?_eq_none.mpr (fun kv hkv => by simp [h1 kv hkv])
      rw [hnone]
      simp [List.find?, hk]
    have hemp : fd.isEmpty = false := by
      cases fd with
      | nil => exact absurd rfl hne
      | cons x xs => rfl
    induction items with
    | nil => simp at hmem
    | cons it rest ih =>
      by_cases hit : it = item
      · subst hit
        simp only [buildReport, hfm, hemp, Bool.false_eq_true, if_false]
        rw [vget_cons, if_pos (beq_self_eq_true it)]
      · have hm2 : item ∈ rest := by
          rcases List.mem_cons.mp hmem with hq | hq
          · exact absurd hq.symm hit
          · exact hq
        simp only [buildReport]
        cases hf2 : findMatch (d1 ++ (k, fd) :: d2) it with
        | none => simp only [hf2]; exact ih hm2
        | some fd2 =>
          simp only [hf2]
          by_cases he2 : fd2.isEmpty
          · rw [if_pos he2]; exact ih hm2
          · rw [if_neg he2, vget_cons, if_neg (by simp [hit])]
            exact ih hm2
  · intro d item items hall
    have hfm : findMatch d item = none := by
      unfold findMatch
      rw [List.find?_eq_none.mpr (fun kv hkv => by simp [hall kv hkv])]
      rfl
    induction items with
    | nil => simp [buildReport, vget, List.find?]
    | cons it rest ih =>
      simp only [buildReport]
      by_cases hit : it = item
      · subst hit
        simp only [hfm]
        exact ih
      · cases hf2 : findMatch d it with
        | none => simp only [hf2]; exact ih
        | some fd2 =>
          simp only [hf2]
          by_cases he2 : fd2.isEmpty
          · rw [if_pos he2]; exact ih
          · rw [if_neg he2, vget_cons, if_neg (by simp [hit])]
            exact ih

/-- C7 witness: for the item "palm oil", the first case-insensitively
matching key "Palm Oil Extract" wins over the later exact-name key
"Palm Oil", and its RED verdict is the one accepted. -/
theorem C7_witness :
    vget (buildReport
        [("Aqua", [("status", "GREEN"), ("explanation", "water")]),
         ("Palm Oil Extract",
          [("status", "RED"), ("explanation", "deforestation")]),
         ("Palm Oil", [("status", "GREEN"), ("explanation", "later key")])]
        ["palm oil"]) "palm oil"
      = some ⟨"RED", "deforestation"⟩ :=
  C7_first_match_wins.2.1
    [("Aqua", [("status", "GREEN"), ("explanation", "water")])]
    [("Palm Oil", [("status", "GREEN"), ("explanation", "later key")])]
    "Palm Oil Extract"
    [("status", "RED"), ("explanation", "deforestation")]
    "palm oil" ["palm oil"] (by decide) (by decide) (by decide) (by decide)

/-- C9: the matching/merge logic is deterministic: with a fixed
deterministic arbiter function and fixed agent result mappings (any two
representations with the same lookups), merge_and_judge produces the same
report and the same arbiter-call log, in order and content. -/
theorem C9_merge_deterministic (judge : Judge) (items : List String)
    (A1 B1 A2 B2 : List (String × Verdict))
    (hA : ∀ it, vget A1 it = vget A2 it)
    (hB : ∀ it, vget B1 it = vget B2 it) :
    merge_and_judge judge items A1 B1 = merge_and_judge judge items A2 B2 := by
  have hs : ∀ it, slots A1 B1 it = slots A2 B2 it := by
    intro it
    simp only [slots, hA, hB]
  induction items with
  | nil => rfl
  | cons it rest ih =>
    simp only [merge_and_judge, hs, ih]

/-- C9 witness: two representations of the same agent-A mapping (the
second with a shadowed duplicate key) produce identical merge results. -/
theorem C9_witness :
    merge_and_judge (fun _ _ _ => Except.error "down") ["Beef"]
        [("Beef", ⟨"RED", "high carbon"⟩)]
        [("Beef", ⟨"RED", "high carbon"⟩)]
      = merge_and_judge (fun _ _ _ => Except.error "down") ["Beef"]
          [("Beef", ⟨"RED", "high carbon"⟩), ("Beef", ⟨"YELLOW", "dup"⟩)]
          [("Beef", ⟨"RED", "high carbon"⟩)] :=
  C9_merge_deterministic _ ["Beef"] _ _ _ _
    (fun it => by
      cases hx : ("Beef" == it) <;> simp [vget, List.find?, hx])
    (fun it => rfl)

/-- C10: the return shape of run_greenwash_audit depends on emptiness of
the input: both lists empty yields the pair of an empty report and the
fixed narrative, while any non-empty item set that returns successfully
yields only a FinalVerdict list, with no narrative component. -/
theorem C10_return_shape :
    (∀ (agentA agentB : Except String (List (String × JsonObj)))
       (judge : Judge),
       run_greenwash_audit agentA agentB judge [] [] =
         (Except.ok (AuditReturn.pair [] "No items to analyze."), []))
    ∧ (∀ (agentA agentB : Except String (List (String × JsonObj)))
       (judge : Judge) (ingredients claims : List String)
       (ret : AuditReturn),
       ingredients ++ claims ≠ [] →
       (run_greenwash_audit agentA agentB judge ingredients claims).1 =
         Except.ok ret →
       ∃ final_results, ret = AuditReturn.report final_results) := by
  constructor
  · intro _ _ _
    rfl
  · intro aA aB judge ing cl ret hne h
    have hni : (ing ++ cl).isEmpty = false := List.isEmpty_eq_false.mpr hne
    simp only [run_greenwash_audit] at h
    rw [if_neg (by simp [hni])] at h
    replace h : (merge_and_judge judge (ing ++ cl)
        (call_ai_sync aA (ing ++ cl))
        (call_ai_sync aB (ing ++ cl))).1.map AuditReturn.report
          = Except.ok ret := h
    obtain ⟨fr, _, hret⟩ := except_map_ok _ _ _ h
    exact ⟨fr, hret⟩

/-- C10 witness: a non-empty item set with failing agents returns the bare
report shape. -/
theorem C10_witness :
    ((["Beef"] ++ ([] : List String)) ≠ []) ∧
    ∃ final_results, AuditReturn.report ([] : List FinalVerdict)
        = AuditReturn.report final_results :=
  ⟨by decide,
   C10_return_shape.2 (Except.error "down") (Except.error "down")
     (fun _ _ _ => Except.error "down") ["Beef"] [] (AuditReturn.report [])
     (by decide) rfl⟩

end Greenwash
